import Mathlib

/-!
Verification of the simplerouter request-dispatch composition layer.

Go strings are modelled as `List Char`; Go slices as Lean lists.  Handlers
are modelled, where execution order must be observed, as trace transformers
`Nat → List Nat → List Nat` (request id → trace so far → extended trace);
middlewares are functions from handlers to handlers, exactly as in the
source (`type middleware func(http.Handler) http.Handler`).
-/

namespace SimpleRouter

/-- `strings.TrimPrefix(p, "/")`: drop one leading slash when present. -/
def trimLeadSlash : List Char → List Char
  | '/' :: rest => rest
  | s => s

/-- `strings.TrimSuffix(p, "/")`: drop one trailing slash when present. -/
def trimTrailSlash (s : List Char) : List Char :=
  if s.getLast? = some '/' then s.dropLast else s

/-- The per-segment trim in `buildRootPath`:
`strings.TrimSuffix(strings.TrimPrefix(p, "/"), "/")`. -/
def trimSeg (p : List Char) : List Char :=
  trimTrailSlash (trimLeadSlash p)

/-- One iteration of the loop body of `buildRootPath`. -/
def rootStep (path : List Char) (p : List Char) : List Char :=
  if p = [] ∨ p = ['/'] then path else path ++ '/' :: trimSeg p

/-- `buildRootPath(paths ...string)` from the source: start from `""`,
skip `""` and `"/"` segments, otherwise trim one slash at each end and
append `"/" + p`. -/
def buildRootPath (paths : List (List Char)) : List Char :=
  paths.foldl rootStep []

/-- Splits a path on `'/'`, keeping empty components (the components of
`"/a//b"` are `"", "a", "", "b"`).  Used to express "empty path component". -/
def splitSlash : List Char → List (List Char)
  | [] => [[]]
  | c :: rest =>
    if c = '/' then [] :: splitSlash rest
    else
      match splitSlash rest with
      | s :: ss => (c :: s) :: ss
      | [] => [[c]]

/-- The character class of `strings.IndexAny(pattern, " \t")`. -/
def isSep (c : Char) : Bool := c == ' ' || c == '\t'

/-- `strings.IndexAny(pattern, " \t")`: index of the first space or tab. -/
def indexAny : List Char → Option Nat
  | [] => none
  | c :: rest => if isSep c then some 0 else (indexAny rest).map (· + 1)

/-- `muxWrapper.fullPattern` from the source: with an empty root path the
pattern is returned unchanged; otherwise split at the first space-or-tab,
re-join as `method + " " + rootPath + path` (leading separators stripped
from the path), or simply prefix the root path when no separator occurs. -/
def fullPattern (rootPath pattern : List Char) : List Char :=
  if rootPath = [] then pattern
  else
    match indexAny pattern with
    | some i =>
      pattern.take i ++ ' ' :: (rootPath ++ (pattern.drop i).dropWhile isSep)
    | none => rootPath ++ pattern

/-- `http.StatusMovedPermanently`. -/
def statusMovedPermanently : Nat := 301

/-- `http.StatusTemporaryRedirect`. -/
def statusTemporaryRedirect : Nat := 307

/-- State of one `statusInterceptor` together with the response it wraps.
`location` is the current value of the `Location` header of the shared
header map returned by `Header()`; `recorded` is the wrapper's `Status`
field; `committed` collects the status codes passed on to the embedded
`ResponseWriter.WriteHeader`. -/
structure SIState where
  originalPath : List Char
  location : List Char
  recorded : Nat
  committed : List Nat
deriving DecidableEq

/-- `statusInterceptor.WriteHeader` from the source: a 301 whose `Location`
header is exactly `originalPath + "/"` is rewritten to 307 (recorded on the
wrapper and committed); every other call commits the code unchanged. -/
def SIState.WriteHeader (w : SIState) (code : Nat) : SIState :=
  if code = statusMovedPermanently then
    if w.location = w.originalPath ++ ['/'] then
      { w with
        recorded := statusTemporaryRedirect,
        committed := w.committed ++ [statusTemporaryRedirect] }
    else { w with committed := w.committed ++ [code] }
  else { w with committed := w.committed ++ [code] }

/-- A handler, observed through traces: request id → trace → trace. -/
def Handler : Type := Nat → List Nat → List Nat

/-- A middleware that records the label `l` and then calls `next`
(the shape used to observe execution order). -/
def traceMw (l : Nat) : Handler → Handler :=
  fun next r t => next r (t ++ [l])

/-- A terminal handler that records the label `v`. -/
def traceHandler (v : Nat) : Handler :=
  fun _ t => t ++ [v]

/-- The loop `for idx := len(chain) - 1; idx >= 0; idx-- { out = chain[idx](out) }`:
starting from `out`, the last element is applied first and the head ends up
outermost. -/
def applyChain {H : Type} : List (H → H) → H → H
  | [], out => out
  | m :: rest, out => m (applyChain rest out)

/-- `Router.wrap` from the source: wrap `fn` in the per-route `chain`
(last-to-first), then in the router's own chain `routerChain`
(last-to-first). -/
def wrap {H : Type} (routerChain chain : List (H → H)) (fn : H) : H :=
  applyChain routerChain (applyChain chain fn)

/-- `muxWrapper.Handle` from the source, with the `ServeMux` pattern table
modelled as the list of `(pattern, handler)` registrations in call order:
register the full pattern, then a `-`→`_` substituted variant when the
pattern contains a hyphen, else a `_`→`-` variant when it contains an
underscore. -/
def muxHandle {H : Type} (root : List Char) (regs : List (List Char × H))
    (pattern : List Char) (h : H) : List (List Char × H) :=
  let pat := fullPattern root pattern
  let regs1 := regs ++ [(pat, h)]
  if '-' ∈ pat then
    regs1 ++ [(pat.map (fun c => if c = '-' then '_' else c), h)]
  else if '_' ∈ pat then
    regs1 ++ [(pat.map (fun c => if c = '_' then '-' else c), h)]
  else regs1

/-- Exact-pattern resolution in the registration table (the `ServeMux`
resolves a literal pattern to the handler registered for it). -/
def resolveExact {H : Type} (regs : List (List Char × H)) (p : List Char) :
    Option H :=
  (regs.find? (fun e => decide (e.1 = p))).map (fun e => e.2)

/-- A `Router` and the `muxWrapper` it owns, at registration time:
the root path, the registration table of the underlying `ServeMux`,
and the router's middleware chain. -/
structure RouterState (H : Type) where
  rootPath : List Char
  regs : List (List Char × H)
  chain : List (H → H)

/-- `Router.Use`: append to the router's chain. -/
def RouterState.Use {H : Type} (r : RouterState H) (ms : List (H → H)) :
    RouterState H :=
  { r with chain := r.chain ++ ms }

/-- `Router.handle`: register `method + " " + path` on the mux with the
handler `wrap(fn, chain)` composed from the router's current chain. -/
def RouterState.handle {H : Type} (r : RouterState H)
    (method path : List Char) (fn : H) (chain : List (H → H)) :
    RouterState H :=
  { r with
    regs := muxHandle r.rootPath r.regs (method ++ ' ' :: path)
      (wrap r.chain chain fn) }

/-- `Router.SetBasePath`: store the argument verbatim as the root path. -/
def RouterState.SetBasePath {H : Type} (r : RouterState H) (p : List Char) :
    RouterState H :=
  { r with rootPath := p }

/-- `Router.BasePath`: return the stored root path. -/
def RouterState.BasePath {H : Type} (r : RouterState H) : List Char :=
  r.rootPath

/-- A `muxWrapper` at dispatch time.  The external `ServeMux` is the
black-box collaborator: `resolvePattern r` is the matched pattern returned
by `ServeMux.Handler(r)` (empty when nothing matches) and `muxServeHTTP`
is `ServeMux.ServeHTTP`, which serves the matched pre-composed handler or
its own default not-found response.  `httpHandler` is the optional global
wrapper, `notFoundHandler` the optional custom not-found handler. -/
structure MuxWrapper where
  resolvePattern : Nat → List Char
  muxServeHTTP : Handler
  httpHandler : Option (Handler → Handler)
  notFoundHandler : Option Handler

/-- `muxWrapper.ServeHTTP` from the source: when a not-found handler is set
and no pattern matches, invoke it and return; otherwise serve through the
global wrapper when one is set, else directly.  (The interceptor wrapping
of the response only affects status commitment, modelled by `SIState`;
this model tracks which handlers run.) -/
def MuxWrapper.ServeHTTP (m : MuxWrapper) : Handler := fun r t =>
  match m.notFoundHandler with
  | some nf =>
    if m.resolvePattern r = [] then nf r t
    else
      match m.httpHandler with
      | some g => g m.muxServeHTTP r t
      | none => m.muxServeHTTP r t
  | none =>
    match m.httpHandler with
    | some g => g m.muxServeHTTP r t
    | none => m.muxServeHTTP r t

end SimpleRouter

namespace SimpleRouter

theorem applyChain_eq_foldr {H : Type} (l : List (H → H)) (fn : H) :
    applyChain l fn = l.foldr (fun m acc => m acc) fn := by
  induction l with
  | nil => rfl
  | cons m rest ih => simp [applyChain, ih]

theorem applyChain_traceMw :
    ∀ (cs : List Nat) (k : Handler) (r : Nat) (t : List Nat),
      applyChain (cs.map traceMw) k r t = k r (t ++ cs) := by
  intro cs
  induction cs with
  | nil => intro k r t; simp [applyChain]
  | cons c cs ih => intro k r t; simp [applyChain, traceMw, ih]

/-- C1: the composed handler of a route is built by folding the per-route
middleware list last-to-first around the handler and then folding the
router-chain snapshot last-to-first around that result; consequently the
observable execution order is: router-chain middlewares in the order added
(first-added outermost), then per-route middlewares in the order passed,
then the handler. -/
theorem c1_wrap_composition_order :
    (∀ (H : Type) (routerChain chain : List (H → H)) (fn : H),
        wrap routerChain chain fn
          = List.foldr (fun m acc => m acc)
              (List.foldr (fun m acc => m acc) fn chain) routerChain)
  ∧ ∀ (cs rs : List Nat) (v r : Nat) (t : List Nat),
      wrap (cs.map traceMw) (rs.map traceMw) (traceHandler v) r t
        = t ++ cs ++ rs ++ [v] := by
  constructor
  · intro H routerChain chain fn
    simp [wrap, applyChain_eq_foldr]
  · intro cs rs v r t
    simp [wrap, applyChain_traceMw, traceHandler, List.append_assoc]

/-- C4: the chain composed into a route is the router's chain contents at
the moment of registration: `Use [m3]` after a registration leaves the
stored handler of the earlier route composed with the old chain (no `m3`),
while a route registered afterwards is composed with the appended chain. -/
theorem c4_chain_snapshot :
    ∀ (H : Type) (r : RouterState H) (m1 p1 : List Char) (f1 : H)
      (pr1 : List (H → H)) (m3 : H → H) (m2 p2 : List Char) (f2 : H)
      (pr2 : List (H → H)),
      (((r.handle m1 p1 f1 pr1).Use [m3]).handle m2 p2 f2 pr2).regs
        = muxHandle r.rootPath
            (muxHandle r.rootPath r.regs (m1 ++ ' ' :: p1)
              (wrap r.chain pr1 f1))
            (m2 ++ ' ' :: p2) (wrap (r.chain ++ [m3]) pr2 f2)
      ∧ (((r.handle m1 p1 f1 pr1).Use [m3]).handle m2 p2 f2 pr2).chain
        = r.chain ++ [m3] := by
  intro H r m1 p1 f1 pr1 m3 m2 p2 f2 pr2
  exact ⟨rfl, rfl⟩

/-- C10: `SetBasePath` stores its argument verbatim and `BasePath` returns
it unchanged, even when it ends with a slash or does not start with one. -/
theorem c10_set_base_path_verbatim :
    (∀ (H : Type) (r : RouterState H) (p : List Char),
        (r.SetBasePath p).BasePath = p)
  ∧ ∀ (H : Type) (r : RouterState H),
      ((r.SetBasePath "v1/".toList).BasePath).getLast? = some '/'
      ∧ ((r.SetBasePath "api".toList).BasePath).head? ≠ some '/' := by
  refine ⟨fun H r p => rfl, fun H r => ⟨rfl, ?_⟩⟩
  show ("api".toList).head? ≠ some '/'
  decide

/-- C10 witness: the verbatim store observed at concrete inputs. -/
theorem c10_witness :
    ((RouterState.SetBasePath (H := Nat) ⟨[], [], []⟩ "v1/".toList).BasePath)
      = "v1/".toList
    ∧ ((RouterState.SetBasePath (H := Nat) ⟨[], [], []⟩ "api".toList).BasePath).head?
      ≠ some '/' :=
  ⟨c10_set_base_path_verbatim.1 Nat ⟨[], [], []⟩ "v1/".toList,
   (c10_set_base_path_verbatim.2 Nat ⟨[], [], []⟩).2⟩

/-- C2 counterexample: with no custom not-found handler configured, a
request matching no pattern is still served through the global wrapper:
the wrapper (recording label 7) runs around the dispatcher's default
not-found response (label 44), so the dispatch trace is `[7, 44]`. -/
theorem c2_counterexample :
    MuxWrapper.resolvePattern
      ⟨fun _ => [], fun _ t => t ++ [44],
       some (fun next r t => next r (t ++ [7])), none⟩ 0 = []
    ∧ MuxWrapper.ServeHTTP
        ⟨fun _ => [], fun _ t => t ++ [44],
         some (fun next r t => next r (t ++ [7])), none⟩ 0 [] = [7, 44] :=
  ⟨rfl, rfl⟩

/-- C2 amended: for a request matching no pattern, the global wrapper is
never invoked when a custom not-found handler is configured — dispatch is
exactly the not-found handler and is independent of the wrapper; without a
custom not-found handler the wrapper does run. -/
theorem c2_amended_wrapper_bypass :
    ∀ (m : MuxWrapper) (nf : Handler) (r : Nat),
      m.notFoundHandler = some nf → m.resolvePattern r = [] →
      MuxWrapper.ServeHTTP m r = nf r
      ∧ ∀ g, MuxWrapper.ServeHTTP { m with httpHandler := some g } r
          = MuxWrapper.ServeHTTP { m with httpHandler := none } r := by
  intro m nf r hnf hmatch
  constructor
  · funext t
    simp [MuxWrapper.ServeHTTP, hnf, hmatch]
  · intro g
    funext t
    simp [MuxWrapper.ServeHTTP, hnf, hmatch]

/-- C2 amended witness: with a custom not-found handler (label 40) and a
recording global wrapper, a non-matching request yields exactly the
not-found trace `[40]` and the wrapper is irrelevant. -/
theorem c2_witness :
    MuxWrapper.ServeHTTP
      ⟨fun _ => [], fun _ t => t ++ [44],
       some (fun next r t => next r (t ++ [7])),
       some (fun _ t => t ++ [40])⟩ 0 [] = [40] := by
  have h := c2_amended_wrapper_bypass
    ⟨fun _ => [], fun _ t => t ++ [44],
     some (fun next r t => next r (t ++ [7])),
     some (fun _ t => t ++ [40])⟩ (fun _ t => t ++ [40]) 0 rfl rfl
  exact congrFun h.1 []

/-- C5: a request matching no pattern is always resolved deterministically:
into the configured not-found handler when one is set (bypassing the
global wrapper — the result does not depend on it — and every per-route
chain held inside the dispatcher), else into the dispatcher's own serving
of its default not-found response, through the global wrapper if set. -/
theorem c5_not_found_resolution :
    ∀ (m : MuxWrapper) (r : Nat), m.resolvePattern r = [] →
      (∀ nf, m.notFoundHandler = some nf →
        MuxWrapper.ServeHTTP m r = nf r
        ∧ ∀ g, MuxWrapper.ServeHTTP { m with httpHandler := some g } r = nf r)
      ∧ (m.notFoundHandler = none →
          MuxWrapper.ServeHTTP m r
            = match m.httpHandler with
              | some g => g m.muxServeHTTP r
              | none => m.muxServeHTTP r) := by
  intro m r hmatch
  constructor
  · intro nf hnf
    constructor
    · funext t
      simp [MuxWrapper.ServeHTTP, hnf, hmatch]
    · intro g
      funext t
      simp [MuxWrapper.ServeHTTP, hnf, hmatch]
  · intro hnf
    funext t
    cases hh : m.httpHandler with
    | some g => simp [MuxWrapper.ServeHTTP, hnf, hh]
    | none => simp [MuxWrapper.ServeHTTP, hnf, hh]

/-- C5 witness: concrete resolution of a non-matching request into the
configured not-found handler. -/
theorem c5_witness :
    MuxWrapper.ServeHTTP
      ⟨fun _ => [], fun _ t => t ++ [44],
       some (fun next r t => next r (t ++ [7])),
       some (fun _ t => t ++ [40])⟩ 0 [] = [40] := by
  have h := (c5_not_found_resolution
    ⟨fun _ => [], fun _ t => t ++ [44],
     some (fun next r t => next r (t ++ [7])),
     some (fun _ t => t ++ [40])⟩ 0 rfl).1 (fun _ t => t ++ [40]) rfl
  exact congrFun h.1 []

/-- C3: `WriteHeader` commits 307 (and records it on the wrapper) when the
code is 301 and the `Location` header equals the original path plus `"/"`;
commits 301 unchanged when the location differs; and commits any non-301
code unmodified. -/
theorem c3_write_header :
    ∀ (w : SIState) (code : Nat),
      (code = statusMovedPermanently →
        w.location = w.originalPath ++ ['/'] →
        w.WriteHeader code
          = { w with recorded := statusTemporaryRedirect,
                     committed := w.committed ++ [statusTemporaryRedirect] })
      ∧ (code = statusMovedPermanently →
          w.location ≠ w.originalPath ++ ['/'] →
          w.WriteHeader code
            = { w with committed := w.committed ++ [statusMovedPermanently] })
      ∧ (code ≠ statusMovedPermanently →
          w.WriteHeader code = { w with committed := w.committed ++ [code] }) := by
  intro w code
  refine ⟨fun h1 h2 => ?_, fun h1 h2 => ?_, fun h1 => ?_⟩
  · simp [SIState.WriteHeader, h1, h2]
  · subst h1
    simp [SIState.WriteHeader, h2]
  · simp [SIState.WriteHeader, h1]

/-- C3 witness: the three branches at concrete states. -/
theorem c3_witness :
    SIState.WriteHeader ⟨"/r".toList, "/r/".toList, 0, []⟩ 301
      = ⟨"/r".toList, "/r/".toList, 307, [307]⟩
    ∧ SIState.WriteHeader ⟨"/r".toList, "/x".toList, 0, []⟩ 301
      = ⟨"/r".toList, "/x".toList, 0, [301]⟩
    ∧ SIState.WriteHeader ⟨"/r".toList, "/r/".toList, 0, []⟩ 200
      = ⟨"/r".toList, "/r/".toList, 0, [200]⟩ := by
  refine ⟨?_, ?_, ?_⟩
  · exact (c3_write_header ⟨"/r".toList, "/r/".toList, 0, []⟩ 301).1 rfl (by decide)
  · exact (c3_write_header ⟨"/r".toList, "/x".toList, 0, []⟩ 301).2.1 rfl (by decide)
  · exact (c3_write_header ⟨"/r".toList, "/r/".toList, 0, []⟩ 200).2.2 (by decide)

theorem splitSlash_ne_nil (s : List Char) : splitSlash s ≠ [] := by
  induction s with
  | nil => simp [splitSlash]
  | cons c rest ih =>
    simp only [splitSlash]
    split
    · simp
    · cases h : splitSlash rest <;> simp

theorem splitSlash_append (a b : List Char) :
    splitSlash (a ++ '/' :: b) = splitSlash a ++ splitSlash b := by
  induction a with
  | nil =>
    show [] :: splitSlash b = [[]] ++ splitSlash b
    rfl
  | cons c a ih =>
    by_cases hc : c = '/'
    · subst hc
      show [] :: splitSlash (a ++ '/' :: b) = ([] :: splitSlash a) ++ splitSlash b
      simp [ih]
    · simp only [List.cons_append, splitSlash, if_neg hc, List.append_eq]
      rw [ih]
      cases h : splitSlash a with
      | nil => exact absurd h (splitSlash_ne_nil a)
      | cons s ss => rfl

theorem foldl_rootStep_skip :
    ∀ (ps : List (List Char)) (acc : List Char),
      (∀ p ∈ ps, p = [] ∨ p = ['/']) → List.foldl rootStep acc ps = acc := by
  intro ps
  induction ps with
  | nil => intro acc _; rfl
  | cons p ps ih =>
    intro acc h
    have hp := h p (by simp)
    have hps : ∀ q ∈ ps, q = [] ∨ q = ['/'] := fun q hq => h q (by simp [hq])
    show List.foldl rootStep (rootStep acc p) ps = acc
    rw [show rootStep acc p = acc from by rw [rootStep, if_pos hp]]
    exact ih acc hps

theorem foldl_rootStep_no_empty :
    ∀ (ps : List (List Char)) (acc : List Char),
      [] ∉ (splitSlash acc).drop 1 →
      (∀ p ∈ ps, ¬(p = [] ∨ p = ['/']) → [] ∉ splitSlash (trimSeg p)) →
      [] ∉ (splitSlash (List.foldl rootStep acc ps)).drop 1 := by
  intro ps
  induction ps with
  | nil => intro acc hacc _; exact hacc
  | cons p ps ih =>
    intro acc hacc h
    have hps : ∀ q ∈ ps, ¬(q = [] ∨ q = ['/']) → [] ∉ splitSlash (trimSeg q) :=
      fun q hq => h q (by simp [hq])
    show [] ∉ (splitSlash (List.foldl rootStep (rootStep acc p) ps)).drop 1
    by_cases hp : p = [] ∨ p = ['/']
    · rw [show rootStep acc p = acc from by rw [rootStep, if_pos hp]]
      exact ih acc hacc hps
    · refine ih _ ?_ hps
      have hclean := h p (by simp) hp
      rw [show rootStep acc p = acc ++ '/' :: trimSeg p from by
        rw [rootStep, if_neg hp]]
      rw [splitSlash_append]
      obtain ⟨s, ss, hx⟩ : ∃ s ss, splitSlash acc = s :: ss := by
        cases h' : splitSlash acc with
        | nil => exact absurd h' (splitSlash_ne_nil acc)
        | cons s ss => exact ⟨s, ss, rfl⟩
      rw [hx]
      rw [hx] at hacc
      simp only [List.cons_append, List.drop_succ_cons, List.drop_zero] at hacc ⊢
      simp only [List.mem_append]
      rintro (hin | hin)
      · exact hacc hin
      · exact hclean hin

/-- C6 counterexample: the segment `"//"` is neither empty nor `"/"`, so it
is not skipped; after the single trim at each end it is empty, and the
appended `"/" + ""` makes `join("//") = "/"`, whose component after the
leading slash is empty — an empty path component is produced. -/
theorem c6_counterexample :
    buildRootPath [['/', '/']] = ['/']
    ∧ [] ∈ (splitSlash (buildRootPath [['/', '/']])).drop 1 := by
  constructor
  · rfl
  · simp [buildRootPath, rootStep, trimSeg, trimLeadSlash, trimTrailSlash,
      splitSlash]

/-- C6 amended: `join` skips empty and bare-`"/"` segments, strips exactly
one leading and one trailing slash from every other segment and appends
`"/" + segment`; zero or all-empty segments yield the empty string, and
the three listed examples hold.  Empty path components are avoided only
when every kept segment is free of empty components after the single trim
(a segment such as `"//"` still produces one). -/
theorem c6_amended_join :
    (∀ (ps : List (List Char)) (p : List Char),
        buildRootPath (ps ++ [p])
          = if p = [] ∨ p = ['/'] then buildRootPath ps
            else buildRootPath ps ++ '/' :: trimSeg p)
  ∧ (∀ ps : List (List Char), (∀ p ∈ ps, p = [] ∨ p = ['/']) →
        buildRootPath ps = [])
  ∧ (∀ ps : List (List Char),
        (∀ p ∈ ps, ¬(p = [] ∨ p = ['/']) → [] ∉ splitSlash (trimSeg p)) →
        [] ∉ (splitSlash (buildRootPath ps)).drop 1)
  ∧ buildRootPath [] = []
  ∧ buildRootPath ["api".toList, "v1".toList, "users".toList]
      = "/api/v1/users".toList
  ∧ buildRootPath ["/api/".toList, "/v1/".toList, "/users/".toList]
      = "/api/v1/users".toList
  ∧ buildRootPath ["api/".toList, "v1/".toList, "users/".toList]
      = "/api/v1/users".toList := by
  refine ⟨?_, ?_, ?_, rfl, by decide, by decide, by decide⟩
  · intro ps p
    simp [buildRootPath, List.foldl_append, rootStep]
  · intro ps h
    exact foldl_rootStep_skip ps [] h
  · intro ps h
    refine foldl_rootStep_no_empty ps [] ?_ h
    simp [splitSlash]

/-- C6 witness: the all-empty case and the clean-segment case at concrete
inputs. -/
theorem c6_witness :
    buildRootPath [[], ['/']] = []
    ∧ [] ∉ (splitSlash (buildRootPath ["api".toList, "v1/".toList])).drop 1 :=
  ⟨c6_amended_join.2.1 [[], ['/']] (by decide),
   c6_amended_join.2.2.1 ["api".toList, "v1/".toList] (by decide)⟩

theorem foldl_rootStep_head :
    ∀ (ps : List (List Char)) (acc : List Char),
      (acc = [] ∨ ∃ t, acc = '/' :: t) →
      (List.foldl rootStep acc ps = []
        ∨ ∃ t, List.foldl rootStep acc ps = '/' :: t) := by
  intro ps
  induction ps with
  | nil => intro acc h; exact h
  | cons p ps ih =>
    intro acc h
    show List.foldl rootStep (rootStep acc p) ps = [] ∨ _
    refine ih _ ?_
    by_cases hp : p = [] ∨ p = ['/']
    · rw [rootStep, if_pos hp]; exact h
    · rw [rootStep, if_neg hp]
      rcases h with h0 | ⟨t, ht⟩
      · subst h0; exact Or.inr ⟨trimSeg p, rfl⟩
      · subst ht; exact Or.inr ⟨t ++ '/' :: trimSeg p, rfl⟩

/-- C9 counterexample: with `a = "//"`, `b = ""`, `c = "x"` we get
`join(a, b) = "/"`, which is skipped when re-joined, so
`join(join(a, b), c) = "/x"` while `join(a, b, c) = "//x"`. -/
theorem c9_counterexample :
    buildRootPath [buildRootPath [['/', '/'], []], ['x']]
      ≠ buildRootPath [['/', '/'], [], ['x']] := by decide

/-- C9 amended: re-joining is the identity whenever the first join does not
end in a slash: `join(join(as), cs) = join(as ++ cs)`.  A segment whose
single trim leaves a trailing slash or trims to empty (such as `"a//"` or
`"//"`) can make the first join end in a slash and break the equation. -/
theorem c9_amended_rejoin :
    ∀ (as cs : List (List Char)),
      (buildRootPath as).getLast? ≠ some '/' →
      buildRootPath (buildRootPath as :: cs) = buildRootPath (as ++ cs) := by
  intro as cs h
  have hstep : rootStep [] (buildRootPath as) = buildRootPath as := by
    rcases foldl_rootStep_head as [] (Or.inl rfl) with h0 | ⟨t, ht⟩
    · have h0' : buildRootPath as = [] := h0
      rw [h0']
      rfl
    · have ht' : buildRootPath as = '/' :: t := ht
      have htne : t ≠ [] := by
        intro h'
        subst h'
        rw [ht'] at h
        exact h rfl
      rw [ht']
      have hcond : ¬('/' :: t = [] ∨ '/' :: t = ['/']) := by
        rintro (h' | h')
        · exact List.noConfusion h'
        · apply htne
          injection h'
      rw [rootStep, if_neg hcond]
      have hlast : t.getLast? ≠ some '/' := by
        rw [ht'] at h
        obtain ⟨b, l, hb⟩ : ∃ b l, t = b :: l := by
          cases t with
          | nil => exact absurd rfl htne
          | cons b l => exact ⟨b, l, rfl⟩
        subst hb
        rwa [List.getLast?_cons_cons] at h
      have htrim : trimSeg ('/' :: t) = t := by
        rw [trimSeg, show trimLeadSlash ('/' :: t) = t from rfl,
          trimTrailSlash, if_neg hlast]
      rw [htrim]
      rfl
  show List.foldl rootStep (rootStep [] (buildRootPath as)) cs
      = List.foldl rootStep [] (as ++ cs)
  rw [hstep, List.foldl_append]
  rfl

/-- C9 witness: re-joining at concrete well-formed segments. -/
theorem c9_witness :
    buildRootPath [buildRootPath ["api".toList, "v1".toList], "users".toList]
      = buildRootPath ["api".toList, "v1".toList, "users".toList] :=
  c9_amended_rejoin ["api".toList, "v1".toList] ["users".toList] (by decide)

theorem indexAny_of_first_sep :
    ∀ (before : List Char), (∀ x ∈ before, isSep x = false) →
      ∀ (c : Char) (rest : List Char), isSep c = true →
        indexAny (before ++ c :: rest) = some before.length := by
  intro before
  induction before with
  | nil =>
    intro _ c rest hc
    simp [indexAny, hc]
  | cons b before ih =>
    intro h c rest hc
    have hb : isSep b = false := h b (by simp)
    have h' : ∀ x ∈ before, isSep x = false := fun x hx => h x (by simp [hx])
    simp [indexAny, hb, ih h' c rest hc]

/-- C7: `fullPattern` returns the pattern unchanged when the root path is
empty; with a non-empty root path and no space-or-tab in the pattern it
returns `rootPath ++ pattern`; and when the pattern splits as
`method ++ sep ++ rest` at its first space-or-tab, it returns
`method ++ " " ++ rootPath ++ path` where `path` is the remainder with
all leading spaces and tabs stripped — a single-space separator whether
the input used a space or a tab. -/
theorem c7_full_pattern :
    (∀ pattern : List Char, fullPattern [] pattern = pattern)
  ∧ (∀ root pattern : List Char, root ≠ [] → indexAny pattern = none →
      fullPattern root pattern = root ++ pattern)
  ∧ (∀ (root before rest : List Char) (c : Char), root ≠ [] →
      (∀ x ∈ before, isSep x = false) → isSep c = true →
      fullPattern root (before ++ c :: rest)
        = before ++ ' ' :: (root ++ (c :: rest).dropWhile isSep)) := by
  refine ⟨fun pattern => by simp [fullPattern], ?_, ?_⟩
  · intro root pattern hroot hidx
    simp [fullPattern, if_neg hroot, hidx]
  · intro root before rest c hroot hbefore hc
    rw [fullPattern, if_neg hroot, indexAny_of_first_sep before hbefore c rest hc]
    show List.take before.length (before ++ c :: rest)
        ++ ' ' :: (root
          ++ List.dropWhile isSep (List.drop before.length (before ++ c :: rest)))
      = before ++ ' ' :: (root ++ List.dropWhile isSep (c :: rest))
    rw [List.take_left, List.drop_left]

/-- C7 witness: a tab-separated pattern prefixed with `/api` becomes a
space-separated full pattern. -/
theorem c7_witness :
    fullPattern "/api".toList "GET\t/users".toList = "GET /api/users".toList := by
  have h := c7_full_pattern.2.2 "/api".toList "GET".toList "/users".toList '\t'
    (by decide) (by decide) (by decide)
  have e : "GET\t/users".toList = "GET".toList ++ '\t' :: "/users".toList := by
    decide
  rw [e, h]
  decide

/-- C8: registration through the mux wrapper also registers an
underscore-substituted variant of the full pattern when it contains a
hyphen, else a hyphen-substituted variant when it contains an underscore,
both mapped to the same handler; in particular `/foo-bar` and `/foo_bar`
each resolve to the handler registered under the other spelling. -/
theorem c8_alias_registration :
    (∀ (H : Type) (root : List Char) (regs : List (List Char × H))
        (pattern : List Char) (h : H),
      ('-' ∈ fullPattern root pattern →
        muxHandle root regs pattern h
          = regs ++ [(fullPattern root pattern, h),
              ((fullPattern root pattern).map
                (fun c => if c = '-' then '_' else c), h)])
      ∧ ('-' ∉ fullPattern root pattern → '_' ∈ fullPattern root pattern →
          muxHandle root regs pattern h
            = regs ++ [(fullPattern root pattern, h),
                ((fullPattern root pattern).map
                  (fun c => if c = '_' then '-' else c), h)]))
  ∧ ∀ (H : Type) (h : H),
      resolveExact (muxHandle [] [] "/foo-bar".toList h) "/foo-bar".toList
        = some h
      ∧ resolveExact (muxHandle [] [] "/foo-bar".toList h) "/foo_bar".toList
        = some h
      ∧ resolveExact (muxHandle [] [] "/foo_bar".toList h) "/foo_bar".toList
        = some h
      ∧ resolveExact (muxHandle [] [] "/foo_bar".toList h) "/foo-bar".toList
        = some h := by
  constructor
  · intro H root regs pattern h
    constructor
    · intro hmem
      simp [muxHandle, hmem]
    · intro hmem1 hmem2
      simp [muxHandle, hmem1, hmem2]
  · intro H h
    refine ⟨rfl, rfl, rfl, rfl⟩

/-- C8 witness: the two substitution branches at concrete patterns. -/
theorem c8_witness :
    muxHandle [] [] "/a-b".toList (5 : Nat)
      = [("/a-b".toList, 5), ("/a_b".toList, 5)]
    ∧ muxHandle [] [] "/a_b".toList (5 : Nat)
      = [("/a_b".toList, 5), ("/a-b".toList, 5)] := by
  constructor
  · have h := (c8_alias_registration.1 Nat [] [] "/a-b".toList 5).1 (by decide)
    rw [h]
    decide
  · have h := (c8_alias_registration.1 Nat [] [] "/a_b".toList 5).2
      (by decide) (by decide)
    rw [h]
    decide

end SimpleRouter
